import Mathlib

/-!
Verification of the trustless-medical-ai ledger core and frontend helpers.

The backend canister is exposed through `src/medical_ai_backend/medical_ai_backend.did`
and consumed by `src/medical_ai_frontend/src/App.tsx`; its Rust implementation is not
part of the repository snapshot, so the ledger state machine below is modelled from the
specification (each such definition carries a `Modelled from the spec:` comment).
The frontend helper `getComplianceStatus` is embedded directly from its TypeScript source.
-/

namespace MedicalAI

/-- From `medical_ai_backend.did`: `PatientMetadata`. -/
structure PatientMetadata where
  anonymized_id : String
  age_range : String
  study_type : String
  acquisition_date : String
deriving DecidableEq, Repr

/-- From `medical_ai_backend.did`: `MedicalFinding`.
The `float32` confidence is modelled as a rational number. -/
structure MedicalFinding where
  finding : String
  location : String
  severity : String
  confidence : Rat
deriving DecidableEq, Repr

/-- From `medical_ai_backend.did`: `MedicalDiagnosisResult` (the DiagnosticRecord).
`nat64` fields are modelled as `Nat`, `vec nat8` as `List Nat`, `float32` as `Rat`,
`principal` identities as `String`. -/
structure MedicalDiagnosisResult where
  id : Nat
  diagnosis : String
  confidence_score : Rat
  medical_findings : List MedicalFinding
  timestamp : Nat
  signature : List Nat
  public_key : List Nat
  fda_compliant : Bool
  hipaa_compliant : Bool
  model_version : String
  patient_metadata : PatientMetadata
deriving DecidableEq, Repr

/-- From `medical_ai_backend.did`: `MedicalAuditEntry`. -/
structure MedicalAuditEntry where
  id : Nat
  diagnosis_id : Nat
  action : String
  timestamp : Nat
  principal_id : String
  details : String
  compliance_flags : List String
deriving DecidableEq, Repr

/-- From `medical_ai_backend.did`: `ComplianceReport`. -/
structure ComplianceReport where
  diagnosis_id : Nat
  fda_status : String
  hipaa_status : String
  audit_trail_complete : Bool
  signature_verified : Bool
  regulatory_notes : List String
  certification_level : String
  generated_timestamp : Nat
deriving DecidableEq, Repr

/-- Length-prefixed byte encoding of a string (code points of its characters). -/
def encodeString (s : String) : List Nat :=
  s.data.length :: s.data.map Char.toNat

/-- Fixed-width (three cell) encoding of a rational: sign flag, numerator magnitude,
denominator. -/
def encodeRat (q : Rat) : List Nat :=
  [if q.num < 0 then 1 else 0, q.num.natAbs, q.den]

/-- Modelled from the spec: §4.2 requires canonicalization to be one pure,
deterministic, stable function of
`(diagnosis, confidence_score, created_at, patient_anonymized_id)`; the Rust
implementation that realizes it is not in the repository snapshot. -/
def canonicalBytes (diagnosis : String) (confidence : Rat) (created_at : Nat)
    (anonymized_id : String) : List Nat :=
  encodeString diagnosis ++ (encodeRat confidence ++ (created_at :: encodeString anonymized_id))

/-- Modelled from the spec: the public key material of the external signing
oracle (threshold ECDSA on the host platform), stable for the lifetime of every
record; the oracle is an injected dependency replaceable by a deterministic
fake (§9), which is how it is modelled here. -/
def MGMT_PUBLIC_KEY : List Nat := [2, 7, 1, 8, 2, 8]

/-- Modelled from the spec: the deterministic signature the oracle produces over
a canonical byte string (a deterministic fake of the signing backend, §9). -/
def oracleSignature (msg : List Nat) : List Nat :=
  msg.length :: msg

/-- Modelled from the spec (§4.2): `verify(canonical_bytes, signature, public_key) -> bool`;
never fails, `false` on any mismatch, malformed lengths are just mismatches. -/
def verifyBytes (msg sig pk : List Nat) : Bool :=
  sig == oracleSignature msg && pk == MGMT_PUBLIC_KEY

/-- Modelled from the spec (§4.2): `sign(canonical_bytes) -> (signature, public_key)`,
failing with `SigningUnavailable` when the oracle cannot be reached; availability is
an explicit input `oracleUp`. -/
def oracleSign (oracleUp : Bool) (msg : List Nat) : Option (List Nat × List Nat) :=
  if oracleUp then some (oracleSignature msg, MGMT_PUBLIC_KEY) else none

/-- Modelled from the spec (§9 open question): the effectively fixed deterministic
compliance policy evaluated once at record creation. -/
def fdaPolicy (_diagnosis : String) (_confidence : Rat) : Bool := true

/-- Modelled from the spec (§9 open question): the fixed deterministic HIPAA policy
evaluated once at record creation. -/
def hipaaPolicy (_meta : PatientMetadata) : Bool := true

/-- Modelled from the spec (§2, §9): the ledger aggregate — identifier allocator
(`next_id`), the own allocator of the audit log (`next_audit_id`, an independent
sequence, §4.4), the insert-only ledger store in insertion order, and the
append-only audit log. -/
structure LedgerState where
  next_id : Nat
  next_audit_id : Nat
  records : List MedicalDiagnosisResult
  audit_log : List MedicalAuditEntry
deriving DecidableEq, Repr

/-- Modelled from the spec (§4.1, §4.4): both allocators start at 1 and both
stores start empty. -/
def initState : LedgerState :=
  { next_id := 1, next_audit_id := 1, records := [], audit_log := [] }

/-- Modelled from the spec (§4.4): `append(entry)`; the entry id is assigned by
the own allocator of the log. -/
def appendAudit (st : LedgerState) (diagnosis_id : Nat) (action : String)
    (now : Nat) (caller : String) (details : String) (flags : List String) : LedgerState :=
  { st with
    next_audit_id := st.next_audit_id + 1
    audit_log := st.audit_log ++
      [{ id := st.next_audit_id, diagnosis_id := diagnosis_id, action := action,
         timestamp := now, principal_id := caller, details := details,
         compliance_flags := flags }] }

/-- Diagnosis content produced by the (out of scope) analysis step and handed to
the ledger façade, per the §6 external-producer note of the spec. -/
structure DiagnosisContent where
  diagnosis : String
  confidence_score : Rat
  medical_findings : List MedicalFinding
  model_version : String
deriving DecidableEq, Repr

/-- The canonical bytes of the signed fields of a persisted record
(diagnosis, confidence, created_at, patient anonymized id), §4.2. -/
def recordCanonicalBytes (r : MedicalDiagnosisResult) : List Nat :=
  canonicalBytes r.diagnosis r.confidence_score r.timestamp r.patient_metadata.anonymized_id

/-- Modelled from the spec (§4.6 submission state machine) for
`analyze_medical_image` of `medical_ai_backend.did`: allocate the id, canonicalize
and sign (aborting with `SigningUnavailable` and persisting nothing if the oracle
is down), persist the signed record, append the creation audit entry, return the
signed record. -/
def analyze_medical_image (st : LedgerState) (oracleUp : Bool) (now : Nat)
    (caller : String) (content : DiagnosisContent) (meta : PatientMetadata) :
    Except String MedicalDiagnosisResult × LedgerState :=
  let id := st.next_id
  let st1 := { st with next_id := st.next_id + 1 }
  let msg := canonicalBytes content.diagnosis content.confidence_score now meta.anonymized_id
  match oracleSign oracleUp msg with
  | none => (Except.error "SigningUnavailable", st1)
  | some (sig, pk) =>
      let record : MedicalDiagnosisResult :=
        { id := id, diagnosis := content.diagnosis,
          confidence_score := content.confidence_score,
          medical_findings := content.medical_findings,
          timestamp := now, signature := sig, public_key := pk,
          fda_compliant := fdaPolicy content.diagnosis content.confidence_score,
          hipaa_compliant := hipaaPolicy meta,
          model_version := content.model_version, patient_metadata := meta }
      let st2 := { st1 with records := st1.records ++ [record] }
      let st3 := appendAudit st2 id "DIAGNOSIS_CREATED" now caller
        ("Medical diagnosis created: " ++ content.diagnosis)
        ["FDA_COMPLIANT", "HIPAA_COMPLIANT"]
      (Except.ok record, st3)

/-- Modelled from the spec (§4.3/§6, `get_diagnosis` of the did): lookup by id,
absence is a normal outcome. -/
def get_diagnosis (st : LedgerState) (id : Nat) : Option MedicalDiagnosisResult :=
  st.records.find? (fun r => r.id == id)

/-- The operation `get_diagnosis` as a full query call: a read, so the state is
returned unchanged (declared `query` in `medical_ai_backend.did`). -/
def get_diagnosis_call (st : LedgerState) (id : Nat) :
    Option MedicalDiagnosisResult × LedgerState :=
  (get_diagnosis st id, st)

/-- Modelled from the spec (§4.3 `list_all`): all records, insertion order. -/
def get_all_diagnoses (st : LedgerState) : List MedicalDiagnosisResult :=
  st.records

/-- Modelled from the spec (§4.4 `list_all`): the whole audit log in order. -/
def get_medical_audit_trail (st : LedgerState) : List MedicalAuditEntry :=
  st.audit_log

/-- Modelled from the spec (§4.4 `list_for`): audit entries of one record,
preserving global order. -/
def get_audit_trail_for_diagnosis (st : LedgerState) (id : Nat) : List MedicalAuditEntry :=
  st.audit_log.filter (fun e => e.diagnosis_id == id)

/-- The operation `get_audit_trail_for_diagnosis` as a full query call: per §4.6 it
is one of the simple reads with no state machine, and the did declares it `query`,
so the state comes back unchanged. -/
def get_audit_trail_for_diagnosis_call (st : LedgerState) (id : Nat) :
    List MedicalAuditEntry × LedgerState :=
  (get_audit_trail_for_diagnosis st id, st)

/-- Modelled from the spec (§4.6, §3): `verify_diagnosis_signature` as the spec
describes it — re-verify the stored signature over the canonical bytes, error only
when the record does not exist, and append one signature-verified audit entry. -/
def verify_diagnosis_signature (st : LedgerState) (id : Nat) (now : Nat)
    (caller : String) : Except String Bool × LedgerState :=
  match get_diagnosis st id with
  | none => (Except.error "Diagnosis not found", st)
  | some r =>
      let ok := verifyBytes (recordCanonicalBytes r) r.signature r.public_key
      (Except.ok ok,
        appendAudit st id "SIGNATURE_VERIFIED" now caller
          (if ok then "Signature verification succeeded" else "Signature verification failed")
          [])

/-- From `medical_ai_backend.did` line 60 and the frontend `idlFactory`
(`App.tsx` line 404): `verify_diagnosis_signature` is declared a `query` method, and
on the Internet Computer all state changes made during a query call are discarded,
so whatever the implementation appends internally, the observable state after the
call is the state before it; only the boolean result survives. -/
def verify_diagnosis_signature_query (st : LedgerState) (id : Nat) (now : Nat)
    (caller : String) : Except String Bool × LedgerState :=
  ((verify_diagnosis_signature st id now caller).1, st)

/-- Modelled from the spec (§3, §4.5): the derived, non-persisted compliance view
of one record, computed from the flags of the record, live signature re-verification,
and presence of a creation-type audit entry. -/
def mkComplianceReport (st : LedgerState) (r : MedicalDiagnosisResult)
    (now : Nat) : ComplianceReport :=
  let sigOk := verifyBytes (recordCanonicalBytes r) r.signature r.public_key
  let fda := if sigOk then (if r.fda_compliant then "COMPLIANT" else "NON_COMPLIANT")
             else "NEEDS_REVIEW"
  let hipaa := if sigOk then (if r.hipaa_compliant then "COMPLIANT" else "NON_COMPLIANT")
               else "NEEDS_REVIEW"
  let complete := st.audit_log.any
    (fun e => e.diagnosis_id == r.id && e.action == "DIAGNOSIS_CREATED")
  { diagnosis_id := r.id
    fda_status := fda
    hipaa_status := hipaa
    audit_trail_complete := complete
    signature_verified := sigOk
    regulatory_notes :=
      ["FDA status: " ++ fda, "HIPAA status: " ++ hipaa,
       if sigOk then "Cryptographic signature verified" else "Cryptographic signature invalid"]
    certification_level :=
      if fda == "COMPLIANT" && hipaa == "COMPLIANT" && sigOk then "FULL_CERTIFICATION"
      else "PROVISIONAL"
    generated_timestamp := now }

/-- Modelled from the spec (§4.5, §4.6): `get_fda_compliance_report` — `NotFound`
when the record does not exist, otherwise the freshly derived report, plus one
report-generated audit entry (it is an update call in the did). -/
def get_fda_compliance_report (st : LedgerState) (id : Nat) (now : Nat)
    (caller : String) : Except String ComplianceReport × LedgerState :=
  match get_diagnosis st id with
  | none => (Except.error "Diagnosis not found", st)
  | some r =>
      (Except.ok (mkComplianceReport st r now),
        appendAudit st id "COMPLIANCE_REPORT_GENERATED" now caller
          "FDA compliance report generated" [])

/-- Modelled from the spec (§6 `health_check`): a textual status. -/
def get_system_health (st : LedgerState) : String :=
  "Medical AI System operational. Records: " ++ toString st.records.length

/-- One public façade operation together with its caller-supplied inputs
(oracle availability and wall-clock time are explicit inputs of the model). -/
inductive Op where
  | analyze (oracleUp : Bool) (now : Nat) (caller : String)
      (content : DiagnosisContent) (meta : PatientMetadata)
  | getDiagnosis (id : Nat)
  | getAllDiagnoses
  | getMedicalAuditTrail
  | getAuditTrailFor (id : Nat)
  | verifySignature (id : Nat) (now : Nat) (caller : String)
  | fdaReport (id : Nat) (now : Nat) (caller : String)
  | systemHealth

/-- The state reached after one façade operation (read operations leave the state
unchanged; `verifySignature` here uses the spec-described update behaviour). -/
def applyOp (st : LedgerState) : Op → LedgerState
  | .analyze up now caller content meta => (analyze_medical_image st up now caller content meta).2
  | .getDiagnosis _ => st
  | .getAllDiagnoses => st
  | .getMedicalAuditTrail => st
  | .getAuditTrailFor _ => st
  | .verifySignature id now caller => (verify_diagnosis_signature st id now caller).2
  | .fdaReport id now caller => (get_fda_compliance_report st id now caller).2
  | .systemHealth => st

/-- The state reached after a sequence of façade operations. -/
def runOps (st : LedgerState) (ops : List Op) : LedgerState :=
  ops.foldl applyOp st

/-- The ids handed out by the identifier allocator along a trace, each tagged with
whether that submission succeeded (`true`) or failed at the signing step. -/
def traceAllocatedIds (st : LedgerState) : List Op → List (Bool × Nat)
  | [] => []
  | op :: ops =>
      match op with
      | .analyze up _ _ _ _ => (up, st.next_id) :: traceAllocatedIds (applyOp st op) ops
      | _ => traceAllocatedIds (applyOp st op) ops

/-- Lucide icon components referenced by the compliance dashboard. -/
inductive LucideIcon where
  | Check
  | XCircle
  | AlertTriangle
deriving DecidableEq, Repr

/-- The style record returned by `getComplianceStatus` in the frontend
ComplianceReport component. -/
structure ComplianceStatusStyle where
  icon : LucideIcon
  color : String
  bgColor : String
deriving DecidableEq, Repr

/-- JavaScript `String.prototype.includes`: substring containment. -/
def stringIncludes (s pat : String) : Bool :=
  decide (pat.data <:+: s.data)

/-- From the frontend ComplianceReport component (`getComplianceStatus`,
src/unnamed/part_003 lines 471-479): pick icon and colors from the textual
compliance status. -/
def getComplianceStatus (status : String) : ComplianceStatusStyle :=
  if stringIncludes status "COMPLIANT" then
    { icon := .Check, color := "text-green-600", bgColor := "bg-green-100" }
  else if stringIncludes status "NON_COMPLIANT" then
    { icon := .XCircle, color := "text-red-600", bgColor := "bg-red-100" }
  else
    { icon := .AlertTriangle, color := "text-yellow-600", bgColor := "bg-yellow-100" }

/-- The ledger invariant maintained by every façade operation: record ids and
audit-entry ids stay below their allocators and both stores are strictly sorted
by id (equivalently, in insertion order). -/
def Inv (st : LedgerState) : Prop :=
  (∀ r ∈ st.records, r.id < st.next_id) ∧
  (∀ e ∈ st.audit_log, e.id < st.next_audit_id) ∧
  st.records.Pairwise (fun a b => a.id < b.id) ∧
  st.audit_log.Pairwise (fun a b => a.id < b.id)

/-- Concrete diagnosis content used as a test vector (spec §8 Scenario A). -/
def exContent : DiagnosisContent :=
  { diagnosis := "Pneumonia, right lower lobe"
    confidence_score := 87 / 100
    medical_findings := [{ finding := "Consolidation", location := "right lower lobe",
                           severity := "moderate", confidence := 87 / 100 }]
    model_version := "MedicalAI-v2.1.0" }

/-- Concrete patient metadata used as a test vector. -/
def exMeta : PatientMetadata :=
  { anonymized_id := "PAT-001", age_range := "40-50", study_type := "chest-xray",
    acquisition_date := "2024-01-15" }

/-- The ledger state after one successful submission against the initial state. -/
def exState : LedgerState :=
  (analyze_medical_image initState true 5 "clinician" exContent exMeta).2

/-- The signed record returned by that submission. -/
def exRecord : MedicalDiagnosisResult :=
  { id := 1
    diagnosis := "Pneumonia, right lower lobe"
    confidence_score := 87 / 100
    medical_findings := [{ finding := "Consolidation", location := "right lower lobe",
                           severity := "moderate", confidence := 87 / 100 }]
    timestamp := 5
    signature := oracleSignature (canonicalBytes "Pneumonia, right lower lobe" (87 / 100) 5 "PAT-001")
    public_key := MGMT_PUBLIC_KEY
    fda_compliant := true
    hipaa_compliant := true
    model_version := "MedicalAI-v2.1.0"
    patient_metadata := exMeta }

theorem char_toNat_injective : Function.Injective Char.toNat := by
  intro a b h
  have h1 : Char.ofNat a.toNat = Char.ofNat b.toNat := congrArg Char.ofNat h
  simpa [Char.ofNat_toNat] using h1

theorem encodeString_injective : Function.Injective encodeString := by
  intro s t h
  simp only [encodeString, List.cons.injEq] at h
  have hdata : s.data = t.data := List.map_injective_iff.mpr char_toNat_injective h.2
  cases s; cases t; exact congrArg String.mk hdata

theorem encodeString_append_inj {s t : String} {u v : List Nat}
    (h : encodeString s ++ u = encodeString t ++ v) : s = t ∧ u = v := by
  simp only [encodeString, List.cons_append, List.cons.injEq] at h
  obtain ⟨hlen, htail⟩ := h
  have hmaplen : (s.data.map Char.toNat).length = (t.data.map Char.toNat).length := by
    simpa using hlen
  obtain ⟨hmap, huv⟩ := List.append_inj htail hmaplen
  have hdata : s.data = t.data := List.map_injective_iff.mpr char_toNat_injective hmap
  refine ⟨?_, huv⟩
  cases s; cases t; exact congrArg String.mk hdata

theorem encodeRat_inj {q r : Rat} (h : encodeRat q = encodeRat r) : q = r := by
  simp only [encodeRat, List.cons.injEq, and_true] at h
  obtain ⟨hsign, habs, hden⟩ := h
  have hnum : q.num = r.num := by
    rcases lt_or_le q.num 0 with hq | hq <;> rcases lt_or_le r.num 0 with hr | hr
    · omega
    · rw [if_pos hq, if_neg (not_lt.mpr hr)] at hsign; omega
    · rw [if_neg (not_lt.mpr hq), if_pos hr] at hsign; omega
    · omega
  exact Rat.ext hnum hden

/-- Injectivity of `canonicalBytes` in its four arguments jointly:
distinct signed-field tuples have distinct canonical encodings. -/
theorem canonicalBytes_inj {d d' : String} {c c' : Rat} {t t' : Nat} {a a' : String}
    (h : canonicalBytes d c t a = canonicalBytes d' c' t' a') :
    d = d' ∧ c = c' ∧ t = t' ∧ a = a' := by
  unfold canonicalBytes at h
  obtain ⟨hd, h1⟩ := encodeString_append_inj h
  simp only [encodeRat, List.cons_append, List.cons.injEq, List.nil_append] at h1
  obtain ⟨hsign, habs, hden, ht, h2⟩ := h1
  have hc : c = c' := encodeRat_inj (by simp only [encodeRat, hsign, habs, hden])
  exact ⟨hd, hc, ht, encodeString_injective h2⟩

theorem stringIncludes_of_includes_NON_COMPLIANT {s : String}
    (h : stringIncludes s "NON_COMPLIANT" = true) :
    stringIncludes s "COMPLIANT" = true := by
  have h1 : "NON_COMPLIANT".data <:+: s.data := of_decide_eq_true h
  have h2 : "COMPLIANT".data <:+: "NON_COMPLIANT".data := by decide
  exact decide_eq_true (h2.trans h1)

theorem Inv_initState : Inv initState := by
  simp [Inv, initState]

theorem Inv_appendAudit {st : LedgerState} (h : Inv st)
    (d : Nat) (a : String) (n : Nat) (c : String) (det : String) (f : List String) :
    Inv (appendAudit st d a n c det f) := by
  obtain ⟨hr, he, hpr, hpe⟩ := h
  refine ⟨fun r hmem => hr r hmem, ?_, hpr, ?_⟩
  · intro e hmem
    simp only [appendAudit, List.mem_append, List.mem_singleton] at hmem
    rcases hmem with hmem | rfl
    · exact Nat.lt_succ_of_lt (he e hmem)
    · exact Nat.lt_succ_self _
  · simp only [appendAudit, List.pairwise_append, List.pairwise_cons]
    exact ⟨hpe, by simp, fun x hx b hb => by simp at hb; subst hb; exact he x hx⟩

theorem appendAudit_records (st : LedgerState) (d : Nat) (a : String) (n : Nat)
    (c : String) (det : String) (f : List String) :
    (appendAudit st d a n c det f).records = st.records := rfl

theorem appendAudit_next_id (st : LedgerState) (d : Nat) (a : String) (n : Nat)
    (c : String) (det : String) (f : List String) :
    (appendAudit st d a n c det f).next_id = st.next_id := rfl

theorem Inv_applyOp {st : LedgerState} (h : Inv st) (op : Op) : Inv (applyOp st op) := by
  obtain ⟨hr, he, hpr, hpe⟩ := h
  cases op with
  | analyze up now caller content meta =>
      cases up with
      | false =>
          refine ⟨fun r hmem => Nat.lt_succ_of_lt (hr r hmem), he, hpr, hpe⟩
      | true =>
          apply Inv_appendAudit
          refine ⟨?_, he, ?_, hpe⟩
          · intro r hmem
            simp only [analyze_medical_image, oracleSign, if_pos, List.mem_append,
              List.mem_singleton] at hmem ⊢
            rcases hmem with hmem | rfl
            · exact Nat.lt_succ_of_lt (hr r hmem)
            · exact Nat.lt_succ_self _
          · simp only [analyze_medical_image, oracleSign, if_pos, List.pairwise_append,
              List.pairwise_cons]
            exact ⟨hpr, by simp, fun x hx b hb => by simp at hb; subst hb; exact hr x hx⟩
  | getDiagnosis id => exact ⟨hr, he, hpr, hpe⟩
  | getAllDiagnoses => exact ⟨hr, he, hpr, hpe⟩
  | getMedicalAuditTrail => exact ⟨hr, he, hpr, hpe⟩
  | getAuditTrailFor id => exact ⟨hr, he, hpr, hpe⟩
  | verifySignature id now caller =>
      simp only [applyOp, verify_diagnosis_signature]
      cases get_diagnosis st id with
      | none => exact ⟨hr, he, hpr, hpe⟩
      | some r => exact Inv_appendAudit ⟨hr, he, hpr, hpe⟩ _ _ _ _ _ _
  | fdaReport id now caller =>
      simp only [applyOp, get_fda_compliance_report]
      cases get_diagnosis st id with
      | none => exact ⟨hr, he, hpr, hpe⟩
      | some r => exact Inv_appendAudit ⟨hr, he, hpr, hpe⟩ _ _ _ _ _ _
  | systemHealth => exact ⟨hr, he, hpr, hpe⟩

theorem Inv_runOps {st : LedgerState} (h : Inv st) (ops : List Op) :
    Inv (runOps st ops) := by
  induction ops generalizing st with
  | nil => exact h
  | cons op ops ih => exact ih (Inv_applyOp h op)

theorem next_id_applyOp_analyze (st : LedgerState) (up : Bool) (now : Nat)
    (caller : String) (content : DiagnosisContent) (meta : PatientMetadata) :
    (applyOp st (.analyze up now caller content meta)).next_id = st.next_id + 1 := by
  cases up <;> simp [applyOp, analyze_medical_image, oracleSign, appendAudit]

theorem next_id_le_applyOp (st : LedgerState) (op : Op) :
    st.next_id ≤ (applyOp st op).next_id := by
  cases op with
  | analyze up now caller content meta =>
      rw [next_id_applyOp_analyze]; exact Nat.le_succ _
  | verifySignature id now caller =>
      simp only [applyOp, verify_diagnosis_signature]
      cases get_diagnosis st id <;> simp [appendAudit]
  | fdaReport id now caller =>
      simp only [applyOp, get_fda_compliance_report]
      cases get_diagnosis st id <;> simp [appendAudit]
  | getDiagnosis id => exact le_refl _
  | getAllDiagnoses => exact le_refl _
  | getMedicalAuditTrail => exact le_refl _
  | getAuditTrailFor id => exact le_refl _
  | systemHealth => exact le_refl _

theorem traceAllocatedIds_ge (ops : List Op) (st : LedgerState) :
    ∀ p ∈ traceAllocatedIds st ops, st.next_id ≤ p.2 := by
  induction ops generalizing st with
  | nil => intro p hp; simp [traceAllocatedIds] at hp
  | cons op ops ih =>
      intro p hp
      cases op with
      | analyze up now caller content meta =>
          simp only [traceAllocatedIds, List.mem_cons] at hp
          rcases hp with rfl | hp
          · exact le_refl _
          · have h1 := ih (applyOp st (.analyze up now caller content meta)) p hp
            have h2 := next_id_le_applyOp st (.analyze up now caller content meta)
            omega
      | getDiagnosis id => exact ih _ p hp
      | getAllDiagnoses => exact ih _ p hp
      | getMedicalAuditTrail => exact ih _ p hp
      | getAuditTrailFor id => exact ih _ p hp
      | verifySignature id now caller =>
          have h1 := ih (applyOp st (.verifySignature id now caller)) p hp
          have h2 := next_id_le_applyOp st (.verifySignature id now caller)
          omega
      | fdaReport id now caller =>
          have h1 := ih (applyOp st (.fdaReport id now caller)) p hp
          have h2 := next_id_le_applyOp st (.fdaReport id now caller)
          omega
      | systemHealth => exact ih _ p hp

theorem traceAllocatedIds_pairwise (ops : List Op) (st : LedgerState) :
    ((traceAllocatedIds st ops).map Prod.snd).Pairwise (· < ·) := by
  induction ops generalizing st with
  | nil => simp [traceAllocatedIds]
  | cons op ops ih =>
      cases op with
      | analyze up now caller content meta =>
          simp only [traceAllocatedIds, List.map_cons, List.pairwise_cons]
          refine ⟨?_, ih _⟩
          intro b hb
          simp only [List.mem_map] at hb
          obtain ⟨p, hp, rfl⟩ := hb
          have h1 := traceAllocatedIds_ge ops _ p hp
          have h2 := next_id_applyOp_analyze st up now caller content meta
          omega
      | getDiagnosis id => exact ih _
      | getAllDiagnoses => exact ih _
      | getMedicalAuditTrail => exact ih _
      | getAuditTrailFor id => exact ih _
      | verifySignature id now caller => exact ih _
      | fdaReport id now caller => exact ih _
      | systemHealth => exact ih _

theorem records_verify_applyOp {st : LedgerState}
    (h : ∀ x ∈ st.records,
      verifyBytes (recordCanonicalBytes x) x.signature x.public_key = true)
    (op : Op) :
    ∀ x ∈ (applyOp st op).records,
      verifyBytes (recordCanonicalBytes x) x.signature x.public_key = true := by
  cases op with
  | analyze up now caller content meta =>
      cases up with
      | false => exact h
      | true =>
          intro x hx
          simp only [applyOp, analyze_medical_image, oracleSign, if_true, appendAudit,
            List.mem_append, List.mem_singleton] at hx
          rcases hx with hx | rfl
          · exact h x hx
          · simp [recordCanonicalBytes, verifyBytes, oracleSignature]
  | getDiagnosis id => exact h
  | getAllDiagnoses => exact h
  | getMedicalAuditTrail => exact h
  | getAuditTrailFor id => exact h
  | verifySignature id now caller =>
      simp only [applyOp, verify_diagnosis_signature]
      cases get_diagnosis st id with
      | none => exact h
      | some r => exact h
  | fdaReport id now caller =>
      simp only [applyOp, get_fda_compliance_report]
      cases get_diagnosis st id with
      | none => exact h
      | some r => exact h
  | systemHealth => exact h

theorem records_verify_runOps {st : LedgerState}
    (h : ∀ x ∈ st.records,
      verifyBytes (recordCanonicalBytes x) x.signature x.public_key = true)
    (ops : List Op) :
    ∀ x ∈ (runOps st ops).records,
      verifyBytes (recordCanonicalBytes x) x.signature x.public_key = true := by
  induction ops generalizing st with
  | nil => exact h
  | cons op ops ih => exact ih (records_verify_applyOp h op)

theorem oracleSignature_injective : Function.Injective oracleSignature := by
  intro a b h
  have h1 := congrArg List.tail h
  simpa [oracleSignature] using h1

theorem verifyBytes_self (msg : List Nat) :
    verifyBytes msg (oracleSignature msg) MGMT_PUBLIC_KEY = true := by
  simp [verifyBytes]

theorem verifyBytes_ne_false {msg msg' : List Nat} (h : msg ≠ msg') :
    verifyBytes msg' (oracleSignature msg) MGMT_PUBLIC_KEY = false := by
  have hbe : (oracleSignature msg == oracleSignature msg') = false :=
    beq_eq_false_iff_ne.mpr (fun he => h (oracleSignature_injective he))
  simp [verifyBytes, hbe]

theorem exSubmit_eq :
    analyze_medical_image initState true 5 "clinician" exContent exMeta
      = (Except.ok exRecord, exState) := rfl

/-- C1: after a successful submission the returned signed record verifies: the
stored signature and public key check out against the canonical encoding of the
signed fields (so `verify_diagnosis_signature` on the fresh id answers `Ok true`),
while re-verifying the stored signature against a canonical encoding in which any
one signed field was changed yields `false`; moreover every record persisted in
any state reachable from the initial ledger verifies. -/
theorem C1_sign_verify_roundtrip (st : LedgerState) (now now2 : Nat)
    (caller caller2 : String) (content : DiagnosisContent) (meta : PatientMetadata)
    (r : MedicalDiagnosisResult) (st' : LedgerState)
    (hbound : ∀ x ∈ st.records, x.id < st.next_id)
    (hsub : analyze_medical_image st true now caller content meta = (Except.ok r, st')) :
    (verify_diagnosis_signature st' r.id now2 caller2).1 = Except.ok true ∧
    verifyBytes (recordCanonicalBytes r) r.signature r.public_key = true ∧
    (∀ d' : String, d' ≠ r.diagnosis →
      verifyBytes (canonicalBytes d' r.confidence_score r.timestamp
        r.patient_metadata.anonymized_id) r.signature r.public_key = false) ∧
    (∀ c' : Rat, c' ≠ r.confidence_score →
      verifyBytes (canonicalBytes r.diagnosis c' r.timestamp
        r.patient_metadata.anonymized_id) r.signature r.public_key = false) ∧
    (∀ t' : Nat, t' ≠ r.timestamp →
      verifyBytes (canonicalBytes r.diagnosis r.confidence_score t'
        r.patient_metadata.anonymized_id) r.signature r.public_key = false) ∧
    (∀ a' : String, a' ≠ r.patient_metadata.anonymized_id →
      verifyBytes (canonicalBytes r.diagnosis r.confidence_score r.timestamp a')
        r.signature r.public_key = false) ∧
    (∀ ops : List Op, ∀ x ∈ (runOps initState ops).records,
      verifyBytes (recordCanonicalBytes x) x.signature x.public_key = true) := by
  simp only [analyze_medical_image, oracleSign, if_true, Prod.mk.injEq,
    Except.ok.injEq] at hsub
  obtain ⟨hr, hst⟩ := hsub
  subst hr
  subst hst
  simp only [recordCanonicalBytes]
  refine ⟨?_, ?_, ?_, ?_, ?_, ?_, ?_⟩
  · have hfind : (st.records).find? (fun x => x.id == st.next_id) = none := by
      rw [List.find?_eq_none]
      intro x hx
      simpa using Nat.ne_of_lt (hbound x hx)
    simp [verify_diagnosis_signature, get_diagnosis, appendAudit, List.find?_append,
      hfind, recordCanonicalBytes, verifyBytes_self]
  · exact verifyBytes_self _
  · intro d' hd'
    exact verifyBytes_ne_false (fun he => hd' (canonicalBytes_inj he).1.symm)
  · intro c' hc'
    exact verifyBytes_ne_false (fun he => hc' (canonicalBytes_inj he).2.1.symm)
  · intro t' ht'
    exact verifyBytes_ne_false (fun he => ht' (canonicalBytes_inj he).2.2.1.symm)
  · intro a' ha'
    exact verifyBytes_ne_false (fun he => ha' (canonicalBytes_inj he).2.2.2.symm)
  · intro ops x hx
    exact records_verify_runOps (by simp [initState]) ops x hx

/-- Witness for C1 at the concrete submission of `exContent` against the empty
initial ledger. -/
theorem C1_sign_verify_roundtrip_witness :
    (verify_diagnosis_signature exState exRecord.id 6 "verifier").1 = Except.ok true ∧
    verifyBytes (canonicalBytes "TAMPERED DIAGNOSIS" exRecord.confidence_score
      exRecord.timestamp exRecord.patient_metadata.anonymized_id)
      exRecord.signature exRecord.public_key = false := by
  have h := C1_sign_verify_roundtrip initState 5 6 "clinician" "verifier" exContent exMeta
    exRecord exState (by simp [initState]) exSubmit_eq
  exact ⟨h.1, h.2.2.1 "TAMPERED DIAGNOSIS" (by decide)⟩

/-- C5: when the signing oracle is unavailable the whole submission fails
atomically: the caller gets `SigningUnavailable`, no record is persisted or
visible via the list operation, no audit entry is created, and only the id
allocator has advanced (the allocated id is skipped, never reused). -/
theorem C5_signing_failure_atomic (st : LedgerState) (now : Nat) (caller : String)
    (content : DiagnosisContent) (meta : PatientMetadata) :
    (analyze_medical_image st false now caller content meta).1
        = Except.error "SigningUnavailable" ∧
    (analyze_medical_image st false now caller content meta).2.records = st.records ∧
    (analyze_medical_image st false now caller content meta).2.audit_log = st.audit_log ∧
    get_all_diagnoses (analyze_medical_image st false now caller content meta).2
        = get_all_diagnoses st ∧
    (analyze_medical_image st false now caller content meta).2.next_id
        = st.next_id + 1 := by
  simp [analyze_medical_image, oracleSign, get_all_diagnoses]

/-- C7: looking up an id with no corresponding record returns the empty optional,
not an error, and the call leaves the whole ledger state — the audit log
included — unchanged. -/
theorem C7_get_missing_record (st : LedgerState) (id : Nat)
    (habs : ∀ r ∈ st.records, r.id ≠ id) :
    get_diagnosis_call st id = (none, st) := by
  have hfind : st.records.find? (fun r => r.id == id) = none := by
    rw [List.find?_eq_none]
    intro x hx
    simpa using habs x hx
  simp [get_diagnosis_call, get_diagnosis, hfind]

/-- Witness for C7: record 999 does not exist in the one-record state (spec §8
Scenario B). -/
theorem C7_get_missing_record_witness :
    get_diagnosis_call exState 999 = (none, exState) :=
  C7_get_missing_record exState 999 (by decide)

/-- C8: signature verification never errors on an existing record — it answers
the boolean verdict of `verifyBytes`, which itself is `false` (not an error) on
any mismatch, malformed signature length or malformed public-key length; the
error branch fires exactly when the requested record id does not exist. -/
theorem C8_verify_total (st : LedgerState) (id : Nat) (now : Nat) (caller : String) :
    (∀ r, get_diagnosis st id = some r →
      (verify_diagnosis_signature st id now caller).1 =
        Except.ok (verifyBytes (recordCanonicalBytes r) r.signature r.public_key)) ∧
    (get_diagnosis st id = none →
      (verify_diagnosis_signature st id now caller).1 =
        Except.error "Diagnosis not found") ∧
    (∀ msg sig pk : List Nat, sig.length ≠ msg.length + 1 →
      verifyBytes msg sig pk = false) ∧
    (∀ msg sig pk : List Nat, pk.length ≠ MGMT_PUBLIC_KEY.length →
      verifyBytes msg sig pk = false) := by
  refine ⟨?_, ?_, ?_, ?_⟩
  · intro r hr
    simp [verify_diagnosis_signature, hr]
  · intro hnone
    simp [verify_diagnosis_signature, hnone]
  · intro msg sig pk hlen
    cases hbe : sig == oracleSignature msg with
    | false => simp [verifyBytes, hbe]
    | true =>
        exfalso
        have hsig : sig = oracleSignature msg := eq_of_beq hbe
        rw [hsig] at hlen
        exact hlen (by simp [oracleSignature])
  · intro msg sig pk hlen
    cases hbe : pk == MGMT_PUBLIC_KEY with
    | false => simp [verifyBytes, hbe]
    | true =>
        exfalso
        exact hlen (by rw [eq_of_beq hbe])

/-- Witness for C8 at the one-record state: verification of record 1 answers
`Ok` with the boolean verdict, and a signature of the wrong length is rejected
as `false`. -/
theorem C8_verify_total_witness :
    (verify_diagnosis_signature exState 1 6 "auditor").1 =
      Except.ok (verifyBytes (recordCanonicalBytes exRecord)
        exRecord.signature exRecord.public_key) ∧
    verifyBytes [1, 2] [9] [3] = false := by
  have h := C8_verify_total exState 1 6 "auditor"
  exact ⟨h.1 exRecord (by rfl), h.2.2.1 [1, 2] [9] [3] (by decide)⟩

/-- C4: the identifier allocator starts at 1 and the ids it hands out along any
operation sequence are strictly increasing — both over all allocations
(failed submissions included, so a failed allocation is never reassigned) and
over the ids returned by the successful submissions. -/
theorem C4_ids_strictly_increasing (st : LedgerState) (ops : List Op) :
    initState.next_id = 1 ∧
    ((traceAllocatedIds st ops).map Prod.snd).Pairwise (· < ·) ∧
    (((traceAllocatedIds st ops).filter Prod.fst).map Prod.snd).Pairwise (· < ·) := by
  refine ⟨rfl, traceAllocatedIds_pairwise ops st, ?_⟩
  have hsub : (((traceAllocatedIds st ops).filter Prod.fst).map Prod.snd).Sublist
      ((traceAllocatedIds st ops).map Prod.snd) :=
    List.Sublist.map _ (List.filter_sublist _)
  exact List.Pairwise.sublist hsub (traceAllocatedIds_pairwise ops st)

/-- C9: in any state reachable from the initial ledger, `get_all_diagnoses`
returns the records sorted by id ascending, `get_medical_audit_trail` returns the
audit entries sorted by entry id ascending, and `get_audit_trail_for_diagnosis`
returns exactly the entries whose `diagnosis_id` matches, as an order-preserving
(still sorted) subsequence of the global trail. -/
theorem C9_list_operations_ordered (ops : List Op) (id : Nat) :
    ((get_all_diagnoses (runOps initState ops)).Pairwise (fun a b => a.id < b.id)) ∧
    ((get_medical_audit_trail (runOps initState ops)).Pairwise (fun a b => a.id < b.id)) ∧
    (get_audit_trail_for_diagnosis (runOps initState ops) id
      = (get_medical_audit_trail (runOps initState ops)).filter
          (fun e => e.diagnosis_id == id)) ∧
    ((get_audit_trail_for_diagnosis (runOps initState ops) id).Sublist
        (get_medical_audit_trail (runOps initState ops))) ∧
    ((get_audit_trail_for_diagnosis (runOps initState ops) id).Pairwise
        (fun a b => a.id < b.id)) ∧
    ((get_audit_trail_for_diagnosis (runOps initState ops) id).all
        (fun e => e.diagnosis_id == id) = true) := by
  obtain ⟨hr, he, hpr, hpe⟩ := Inv_runOps Inv_initState ops
  refine ⟨hpr, hpe, rfl, List.filter_sublist _, ?_, ?_⟩
  · exact List.Pairwise.sublist (List.filter_sublist _) hpe
  · rw [List.all_eq_true]
    intro e hmem
    simp only [get_audit_trail_for_diagnosis] at hmem
    exact (List.mem_filter.mp hmem).2

/-- C6: generating the compliance report twice in succession on the same record,
with no intervening mutation, yields reports agreeing on `fda_status`,
`hipaa_status`, `certification_level` and `regulatory_notes` (the generated
timestamps are whatever clock values the two calls observe), and each call
appends exactly one audit entry. -/
theorem C6_report_idempotent (st : LedgerState) (id n1 n2 : Nat) (c1 c2 : String)
    (rep1 rep2 : ComplianceReport)
    (h1 : (get_fda_compliance_report st id n1 c1).1 = Except.ok rep1)
    (h2 : (get_fda_compliance_report (get_fda_compliance_report st id n1 c1).2
            id n2 c2).1 = Except.ok rep2) :
    rep1.fda_status = rep2.fda_status ∧
    rep1.hipaa_status = rep2.hipaa_status ∧
    rep1.certification_level = rep2.certification_level ∧
    rep1.regulatory_notes = rep2.regulatory_notes ∧
    (get_fda_compliance_report st id n1 c1).2.audit_log.length
        = st.audit_log.length + 1 ∧
    (get_fda_compliance_report (get_fda_compliance_report st id n1 c1).2
        id n2 c2).2.audit_log.length = st.audit_log.length + 2 := by
  cases hd : get_diagnosis st id with
  | none => simp [get_fda_compliance_report, hd] at h1
  | some r =>
      have hstate : (get_fda_compliance_report st id n1 c1).2
          = appendAudit st id "COMPLIANCE_REPORT_GENERATED" n1 c1
              "FDA compliance report generated" [] := by
        simp [get_fda_compliance_report, hd]
      rw [hstate] at h2
      have hd2 : get_diagnosis (appendAudit st id "COMPLIANCE_REPORT_GENERATED" n1 c1
          "FDA compliance report generated" []) id = some r := hd
      simp only [get_fda_compliance_report, hd, Except.ok.injEq] at h1
      simp only [get_fda_compliance_report, hd2, Except.ok.injEq] at h2
      subst h1
      subst h2
      rw [hstate]
      refine ⟨?_, ?_, ?_, ?_, ?_, ?_⟩
      · simp [mkComplianceReport]
      · simp [mkComplianceReport]
      · simp [mkComplianceReport]
      · simp [mkComplianceReport]
      · simp [appendAudit]
      · simp only [get_fda_compliance_report, hd2]
        simp [appendAudit]

/-- Witness for C6: two consecutive report generations for record 1 of the
one-record state agree on `fda_status` and append one audit entry each. -/
theorem C6_report_idempotent_witness :
    (mkComplianceReport exState exRecord 7).fda_status
        = (mkComplianceReport (get_fda_compliance_report exState 1 7 "auditor").2
            exRecord 8).fda_status ∧
    (get_fda_compliance_report exState 1 7 "auditor").2.audit_log.length
        = exState.audit_log.length + 1 ∧
    (get_fda_compliance_report (get_fda_compliance_report exState 1 7 "auditor").2
        1 8 "auditor").2.audit_log.length = exState.audit_log.length + 2 := by
  have h := C6_report_idempotent exState 1 7 8 "auditor" "auditor"
    (mkComplianceReport exState exRecord 7)
    (mkComplianceReport (get_fda_compliance_report exState 1 7 "auditor").2 exRecord 8)
    (by rfl) (by rfl)
  exact ⟨h.1, h.2.2.2.2.1, h.2.2.2.2.2⟩

/-- C2, evaluated at the failing input (record 1 of the one-record state): the
spec-described implementation of `verify_diagnosis_signature` would append one
audit entry, but the did and the frontend `idlFactory` declare the method a
`query`, whose state changes the platform discards — so the observable audit log
after the call is unchanged, while `get_fda_compliance_report` (an update call in
the did) does append exactly one entry. -/
theorem C2_query_verify_appends_nothing :
    (verify_diagnosis_signature_query exState 1 7 "verifier").2 = exState ∧
    (verify_diagnosis_signature_query exState 1 7 "verifier").2.audit_log.length
        = exState.audit_log.length ∧
    (verify_diagnosis_signature exState 1 7 "verifier").2.audit_log.length
        = exState.audit_log.length + 1 ∧
    (get_fda_compliance_report exState 1 7 "verifier").2.audit_log.length
        = exState.audit_log.length + 1 := by
  have hd : get_diagnosis exState 1 = some exRecord := rfl
  refine ⟨rfl, rfl, ?_, ?_⟩
  · simp [verify_diagnosis_signature, hd, appendAudit]
  · simp [get_fda_compliance_report, hd, appendAudit]

/-- Counterexample to C3 as stated: retrieving the audit trail of record 1 in the
one-record state does not grow the audit log by one — the operation is a simple
read (§4.6 of the spec, and a `query` method in the did), so the state is
unchanged. -/
theorem C3_counterexample :
    ¬ ((get_audit_trail_for_diagnosis_call exState 1).2.audit_log.length
        = exState.audit_log.length + 1) := by
  intro h
  have hred : (get_audit_trail_for_diagnosis_call exState 1).2 = exState := rfl
  rw [hred] at h
  omega

/-- C3 as amended: `get_audit_trail_for_diagnosis` returns exactly the audit
entries of the given record, preserving the global order (an order-preserving
subsequence of the full trail), and leaves the ledger state — the audit log
included — unchanged: no audit entry is appended. -/
theorem C3_trail_read_pure (st : LedgerState) (id : Nat) :
    (get_audit_trail_for_diagnosis_call st id).1
        = st.audit_log.filter (fun e => e.diagnosis_id == id) ∧
    (get_audit_trail_for_diagnosis_call st id).2 = st ∧
    (get_audit_trail_for_diagnosis_call st id).1.Sublist st.audit_log :=
  ⟨rfl, rfl, List.filter_sublist _⟩

/-- C10: in the frontend compliance dashboard, every status containing the
substring COMPLIANT gets the green Check styling; since NON_COMPLIANT contains
COMPLIANT, the status NON_COMPLIANT is rendered green and the red XCircle branch
is unreachable for every input string, while NEEDS_REVIEW takes the yellow
warning branch. -/
theorem C10_compliance_status_includes (s : String) :
    (stringIncludes s "COMPLIANT" = true →
      getComplianceStatus s
        = { icon := .Check, color := "text-green-600", bgColor := "bg-green-100" }) ∧
    (getComplianceStatus s).icon ≠ LucideIcon.XCircle ∧
    getComplianceStatus "NON_COMPLIANT"
      = { icon := .Check, color := "text-green-600", bgColor := "bg-green-100" } ∧
    (getComplianceStatus "NEEDS_REVIEW").icon = LucideIcon.AlertTriangle := by
  refine ⟨?_, ?_, ?_, ?_⟩
  · intro h
    simp [getComplianceStatus, h]
  · by_cases h1 : stringIncludes s "COMPLIANT" = true
    · simp [getComplianceStatus, h1]
    · have h2 : stringIncludes s "NON_COMPLIANT" = false := by
        cases hb : stringIncludes s "NON_COMPLIANT" with
        | false => rfl
        | true => exact absurd (stringIncludes_of_includes_NON_COMPLIANT hb) h1
      simp [getComplianceStatus, h1, h2]
  · decide
  · decide

/-- Witness for C10 at the concrete status NON_COMPLIANT. -/
theorem C10_compliance_status_includes_witness :
    stringIncludes "NON_COMPLIANT" "COMPLIANT" = true ∧
    getComplianceStatus "NON_COMPLIANT"
      = { icon := LucideIcon.Check, color := "text-green-600",
          bgColor := "bg-green-100" } :=
  ⟨by decide, (C10_compliance_status_includes "NON_COMPLIANT").1 (by decide)⟩

end MedicalAI
